import Mathlib

/-! # kubectl-label-assist: the autocomplete command

A shallow embedding of `cmd/autocomplete/main.go` and the properties of its path builder,
file cache, cache-key escaping and label printing.

Go strings are modelled as Lean `String`s (their characters are `String.data`).  Every
separator the program searches for (`/`) and every character it writes (`_`) is ASCII, so on
text the character-wise operations below agree with Go's byte-wise ones.

A response body is taken from the network as bytes and need not be text.  Where that matters
(what `encoding/json` does to bytes that are not UTF-8, section `utf8`), a string is read as a
sequence of bytes: a character with a code below 256 stands for the byte with that code, so
that the Go literal `"\xff\xfe"` is the Lean literal `"\xff\xfe"`, and U+FFFD, which UTF-8
encodes in three bytes, is `"\xef\xbf\xbd"`.

The Go standard library is not part of the repository.  The small pure functions of
`strings`, `fmt` and `path/filepath` that the program calls are written out below; the
JSON encoder/decoder, the file system, the clock and the API server are inputs of the model.
-/

/-! ## Package `strings` -/

namespace strings

/-- Go `strings.HasPrefix(s, pre)`: does `s` begin with `pre`. -/
def HasPrefix (s pre : String) : Bool :=
  pre.data.isPrefixOf s.data

/-- Scanning loop of `strings.Split` for a non-empty separator.  `skip` counts the characters
of an already matched separator that are still to be passed over, `cur` is the piece being
collected (reversed). -/
def splitGo (sep : List Char) : Nat → List Char → List Char → List String
  | _, cur, [] => [String.mk cur.reverse]
  | skip + 1, cur, _ :: rest => splitGo sep skip cur rest
  | 0, cur, c :: rest =>
    if sep.isPrefixOf (c :: rest) then
      String.mk cur.reverse :: splitGo sep (sep.length - 1) [] rest
    else
      splitGo sep 0 (c :: cur) rest

/-- Go `strings.Split(s, sep)`: the pieces of `s` between the non-overlapping occurrences of
`sep`, found left to right; with an empty separator, one piece per character. -/
def Split (s sep : String) : List String :=
  if sep.data = [] then s.data.map (fun c => String.mk [c])
  else splitGo sep.data 0 [] s.data

/-- Go `strings.Join(elems, sep)`. -/
def Join (elems : List String) (sep : String) : String :=
  String.mk (List.intercalate sep.data (elems.map String.data))

/-- Scanning loop of `strings.ReplaceAll` for a non-empty `old`; `skip` as in `splitGo`. -/
def replaceGo (old new : List Char) : Nat → List Char → List Char
  | _, [] => []
  | skip + 1, _ :: rest => replaceGo old new skip rest
  | 0, c :: rest =>
    if old.isPrefixOf (c :: rest) then
      new ++ replaceGo old new (old.length - 1) rest
    else
      c :: replaceGo old new 0 rest

/-- Go `strings.ReplaceAll(s, old, new)`: every non-overlapping occurrence of `old`, found
left to right, becomes `new`; an empty `old` matches before every character and at the end. -/
def ReplaceAll (s old new : String) : String :=
  if old.data = [] then
    String.mk (new.data ++ s.data.flatMap (fun c => c :: new.data))
  else
    String.mk (replaceGo old.data new.data 0 s.data)

end strings

/-! ## Package `fmt` -/

namespace fmt

/-- Formatting loop of `fmt.Sprintf` for the verbs the program uses: `%s` and `%v`, applied to
operands given by their text (a string, or the message of an error).  Any other character of
the format is copied.  A verb without operand prints `%!s(MISSING)` (`%!v(MISSING)`), operands
left over are reported in a trailing `%!(EXTRA ...)`. -/
def sprintfGo : List Char → List String → List Char
  | [], [] => []
  | [], a :: args =>
    "%!(EXTRA ".data
      ++ List.intercalate ", ".data ((a :: args).map (fun x => "string=".data ++ x.data))
      ++ [')']
  | '%' :: 's' :: rest, a :: args => a.data ++ sprintfGo rest args
  | '%' :: 's' :: rest, [] => "%!s(MISSING)".data ++ sprintfGo rest []
  | '%' :: 'v' :: rest, a :: args => a.data ++ sprintfGo rest args
  | '%' :: 'v' :: rest, [] => "%!v(MISSING)".data ++ sprintfGo rest []
  | c :: rest, args => c :: sprintfGo rest args

/-- Go `fmt.Sprintf(format, args...)` on the fragment of `sprintfGo`. -/
def Sprintf (format : String) (args : List String) : String :=
  String.mk (sprintfGo format.data args)

end fmt

/-! ## Path builder -/

/-- Go `formatPath(namespace, path)` (main.go, lines 117-133); `ns` is the parameter
`namespace`. -/
def formatPath (ns path : String) : String :=
  if strings.HasPrefix path "/apis" then
    if ns = "" then
      path
    else
      let parts := strings.Split path "/"
      if parts.length < 5 then
        path
      else
        fmt.Sprintf "%s/namespaces/%s/%s"
          [strings.Join (((strings.Split path "/").drop 1).take 3) "/",
           ns,
           (strings.Split path "/").getD 4 ""]
  else if ns = "" then
    fmt.Sprintf "/api/v1%s" [path]
  else
    fmt.Sprintf "/api/v1/namespaces/%s%s" [ns, path]

/-- Go `getAPIPath(resourceType, namespace)` (main.go, lines 98-115); the `switch` tries its
cases in order. -/
def getAPIPath (resourceType ns : String) : String :=
  if resourceType = "pods" ∨ resourceType = "pod" ∨ resourceType = "po" then
    formatPath ns "/pods"
  else if resourceType = "deployments" ∨ resourceType = "deployment"
      ∨ resourceType = "deploy" then
    formatPath ns "/apis/apps/v1/deployments"
  else if resourceType = "sts" ∨ resourceType = "statefulsets"
      ∨ resourceType = "statefulset" then
    formatPath ns "/apis/apps/v1/statefulsets"
  else if resourceType = "cm" ∨ resourceType = "configmaps"
      ∨ resourceType = "configmap" then
    formatPath ns "/configmaps"
  else if resourceType = "nodes" ∨ resourceType = "node" then
    "/api/v1/nodes"
  else if resourceType = "services" ∨ resourceType = "service" ∨ resourceType = "svc" then
    formatPath ns "/services"
  else
    formatPath ns (fmt.Sprintf "/%s" [resourceType])

/-- The aliases that `getAPIPath` lists in a `case` of its `switch`. -/
def canonicalAliases : List String :=
  ["pods", "pod", "po", "deployments", "deployment", "deploy", "sts", "statefulsets",
   "statefulset", "cm", "configmaps", "configmap", "nodes", "node", "services", "service",
   "svc"]

/-- The value of the namespace flag after lines 48-51 of `main`: `all` becomes the empty
namespace. -/
def namespaceOfFlag (ns : String) : String :=
  if ns = "all" then "" else ns

/-! ## Cache key -/

/-- Go `escapeCacheKey(apiPath)` (main.go, lines 187-189). -/
def escapeCacheKey (apiPath : String) : String :=
  strings.ReplaceAll apiPath "/" "_"

/-! ## Package `path/filepath` (Unix) -/

namespace filepath

/-- One component in the loop of `filepath.Clean`; `out` holds the components kept so far,
the last one first.  Empty components and `.` are dropped; `..` removes the component before
it, is dropped at the root, and is kept when there is nothing to remove in a relative path. -/
def cleanStep (rooted : Bool) (out : List String) (comp : String) : List String :=
  if comp = "" ∨ comp = "." then out
  else if comp = ".." then
    match out with
    | top :: below => if top = ".." then comp :: out else below
    | [] => if rooted then [] else [comp]
  else comp :: out

/-- Go `filepath.Clean(path)`: the shortest path name equivalent to `path` by purely lexical
processing. -/
def Clean (path : String) : String :=
  if path = "" then "."
  else
    let rooted := strings.HasPrefix path "/"
    let out := (strings.Split path "/").foldl (cleanStep rooted) []
    let s := (if rooted then "/" else "") ++ strings.Join out.reverse "/"
    if s = "" then "." else s

/-- Go `filepath.Join(elem...)`: the elements from the first non-empty one on, joined with the
separator and cleaned; the empty string when every element is empty. -/
def Join (elem : List String) : String :=
  match elem.dropWhile (fun e => e = "") with
  | [] => ""
  | rest => Clean (strings.Join rest "/")

end filepath

/-! ## Package `time` -/

namespace time

/-- Go `time.Second`, a `Duration` in nanoseconds. -/
def Second : Int := 1000000000

/-- Go `time.Minute`. -/
def Minute : Int := 60 * Second

/-- Smallest `Duration` (an `int64`). -/
def minDuration : Int := -(2 ^ 63)

/-- Largest `Duration`. -/
def maxDuration : Int := 2 ^ 63 - 1

/-- Go `t.Sub(u)` for two instants without monotonic reading, each given as nanoseconds of wall
clock since the epoch: the difference, saturated to the range of `Duration`. -/
def Sub (t u : Int) : Int :=
  let d := t - u
  if d < minDuration then minDuration
  else if maxDuration < d then maxDuration
  else d

/-- Go `time.Since(t)` when the clock reads `now`. -/
def Since (now t : Int) : Int :=
  Sub now t

end time

/-! ## File system -/

/-- What a path names in the file system. -/
inductive File where
  /-- Nothing: opening it for reading reports that it does not exist. -/
  | absent
  /-- An entry that can be neither read nor written (no permission, a directory). -/
  | denied
  /-- A regular file that can be read but not written. -/
  | readOnly (data : String)
  /-- A regular file that can be read and written. -/
  | regular (data : String)
  deriving DecidableEq, Repr

/-- A file system: what each path names. -/
abbrev FileSystem := String → File

/-- Errors of a file operation. -/
inductive PathError where
  | notExist
  | permission
  deriving DecidableEq, Repr

/-- Message of a file error (`err.Error()`). -/
def PathError.Error (name : String) : PathError → String
  | .notExist => fmt.Sprintf "open %s: no such file or directory" [name]
  | .permission => fmt.Sprintf "open %s: permission denied" [name]

namespace os

/-- Go `os.IsNotExist(err)`. -/
def IsNotExist : PathError → Bool
  | .notExist => true
  | .permission => false

end os

namespace ioutil

/-- Go `ioutil.ReadFile(name)`. -/
def ReadFile (fs : FileSystem) (name : String) : Except PathError String :=
  match fs name with
  | .absent => .error .notExist
  | .denied => .error .permission
  | .readOnly data => .ok data
  | .regular data => .ok data

/-- Go `ioutil.WriteFile(name, data, 0644)`: creates the file or replaces its content. -/
def WriteFile (fs : FileSystem) (name data : String) : Except PathError FileSystem :=
  match fs name with
  | .absent => .ok (fun p => if p = name then .regular data else fs p)
  | .regular _ => .ok (fun p => if p = name then .regular data else fs p)
  | .denied => .error .permission
  | .readOnly _ => .error .permission

end ioutil

/-! ## File cache -/

/-- Go `var cacheDir = ".cache"`. -/
def cacheDir : String := ".cache"

/-- The record `struct { Timestamp time.Time; Response string }` stored in a cache file; the
timestamp is the instant in nanoseconds of wall clock. -/
structure CachedData where
  Timestamp : Int
  Response : String
  deriving DecidableEq, Repr

/-- Label map of an item: a Go `map[string]string`, `none` for the nil map (labels absent or
null in the JSON), otherwise its entries. -/
abbrev Labels := Option (List (String × String))

/-- Go `type Metadata struct`. -/
structure Metadata where
  Labels : Labels
  deriving DecidableEq, Repr

/-- Go `type Item struct`. -/
structure Item where
  Metadata : Metadata
  deriving DecidableEq, Repr

/-- Go `type Table struct`. -/
structure Table where
  Items : List Item
  deriving DecidableEq, Repr

/-- The functions of `encoding/json` at the two types the program uses them at; an `error`
result carries the message of the error. -/
structure JSON where
  /-- Go `json.Marshal` of a cache record. -/
  Marshal : CachedData → Except String String
  /-- Go `json.Unmarshal` into a cache record. -/
  Unmarshal : String → Except String CachedData
  /-- Go `json.Unmarshal` into a `Table`. -/
  UnmarshalTable : String → Except String Table

/-- The cache file of an API path: `filepath.Join(cacheDir, escapedPath)`, lines 136-137 and
165-166. -/
def cacheFilePath (apiPath : String) : String :=
  filepath.Join [cacheDir, escapeCacheKey apiPath]

/-- Go `getCachedResponse(apiPath)` (main.go, lines 135-162), run on file system `fs` when the
clock reads `now`.  The result is the returned pair and the lines written to the log. -/
def getCachedResponse (json : JSON) (fs : FileSystem) (now : Int) (apiPath : String) :
    (String × Bool) × List String :=
  let cacheFilePath := cacheFilePath apiPath
  match ioutil.ReadFile fs cacheFilePath with
  | .error err =>
    if os.IsNotExist err then
      (("", false), [])
    else
      (("", false), [fmt.Sprintf "Error reading cache file: %v" [err.Error cacheFilePath]])
  | .ok data =>
    match json.Unmarshal data with
    | .error err =>
      (("", false), [fmt.Sprintf "Error unmarshaling cache data: %v" [err]])
    | .ok cachedData =>
      if time.Since now cachedData.Timestamp > 5 * time.Minute then
        (("", false), [])
      else
        ((cachedData.Response, true), [])

/-- Go `setCachedResponse(apiPath, response)` (main.go, lines 164-185), run on file system `fs`
when the clock reads `now`.  The result is the file system afterwards and the lines written to
the log. -/
def setCachedResponse (json : JSON) (fs : FileSystem) (now : Int) (apiPath response : String) :
    FileSystem × List String :=
  let cacheFilePath := cacheFilePath apiPath
  let cachedData : CachedData := { Timestamp := now, Response := response }
  match json.Marshal cachedData with
  | .error err =>
    (fs, [fmt.Sprintf "Error marshaling cache data: %v" [err]])
  | .ok data =>
    match ioutil.WriteFile fs cacheFilePath data with
    | .error err =>
      (fs, [fmt.Sprintf "Error writing cache file: %v" [err.Error cacheFilePath]])
    | .ok fs1 => (fs1, [])

/-! ## The command -/

/-- Go `for key, value := range labels`: the entries visited.  A nil map has none; the entries
of a map are visited in an order the runtime chooses, here `order`. -/
def rangeLabels (order : List (String × String) → List (String × String)) (labels : Labels) :
    List (String × String) :=
  match labels with
  | none => []
  | some entries => order entries

/-- The printing loops of `main` (lines 91-95): every `fmt.Printf("%s=%s\n", key, value)`
appends one write to standard output. -/
def printLabels (order : List (String × String) → List (String × String)) (table : Table)
    (stdout : List String) : List String :=
  table.Items.foldl
    (fun stdout item =>
      (rangeLabels order item.Metadata.Labels).foldl
        (fun stdout kv => stdout ++ [fmt.Sprintf "%s=%s\n" [kv.1, kv.2]])
        stdout)
    stdout

/-- Everything outside the program that one run of `main` depends on. -/
structure World where
  /-- The `encoding/json` functions. -/
  json : JSON
  /-- Result of loading the cluster configuration (lines 53-55). -/
  ClientConfig : Except String Unit
  /-- Result of `kubernetes.NewForConfig` (line 64). -/
  NewForConfig : Except String Unit
  /-- Result of `os.MkdirAll(cacheDir, 0755)` (line 69). -/
  MkdirAll : Except String Unit
  /-- The cache files at the start of the run. -/
  fs : FileSystem
  /-- The clock when `getCachedResponse` reads it. -/
  nowGet : Int
  /-- The clock when `setCachedResponse` reads it. -/
  nowSet : Int
  /-- The API server: the body `DoRaw` returns for a request-URI, or the error. -/
  DoRaw : String → Except String String
  /-- The order in which a `range` visits the entries of a map. -/
  order : List (String × String) → List (String × String)

/-- How a run of `main` ends. -/
structure Exit where
  /-- Exit status: 0, or 1 after `log.Fatalf`. -/
  code : Nat
  /-- The writes to standard output. -/
  stdout : List String
  /-- The lines written to the log. -/
  log : List String
  /-- The cache files at the end of the run. -/
  fs : FileSystem

/-- Go `log.Fatalf`: the message is logged and the process exits with status 1. -/
def Fatalf (fs : FileSystem) (log : List String) (msg : String) : Exit :=
  { code := 1, stdout := [], log := log ++ [msg], fs := fs }

/-- Lines 86-95 of `main`: the response is decoded as a `Table` and its labels are printed. -/
def printTable (w : World) (fs : FileSystem) (log : List String) (result : String) : Exit :=
  match w.json.UnmarshalTable result with
  | .error err => Fatalf fs log (fmt.Sprintf "Error unmarshaling response: %v" [err])
  | .ok table => { code := 0, stdout := printLabels w.order table [], log := log, fs := fs }

namespace autocomplete

/-- Go `main` (main.go, lines 43-96) with the flag values `resourceType` and `nsFlag`. -/
def main (w : World) (resourceType nsFlag : String) : Exit :=
  let ns := namespaceOfFlag nsFlag
  match w.ClientConfig with
  | .error err => Fatalf w.fs [] (fmt.Sprintf "Error creating kubernetes client config: %v" [err])
  | .ok _ =>
    match w.NewForConfig with
    | .error err => Fatalf w.fs [] (fmt.Sprintf "Error creating kubernetes client: %v" [err])
    | .ok _ =>
      match w.MkdirAll with
      | .error err => Fatalf w.fs [] (fmt.Sprintf "Error creating cache directory: %v" [err])
      | .ok _ =>
        let apiPath := getAPIPath resourceType ns
        let cached := getCachedResponse w.json w.fs w.nowGet apiPath
        if cached.1.2 then
          printTable w w.fs cached.2 cached.1.1
        else
          match w.DoRaw apiPath with
          | .error err => Fatalf w.fs cached.2 (fmt.Sprintf "Error getting resource: %v" [err])
          | .ok result =>
            let stored := setCachedResponse w.json w.fs w.nowSet apiPath result
            printTable w stored.1 (cached.2 ++ stored.2) result

end autocomplete

/-! ## Package `unicode/utf8` and the strings of `encoding/json` -/

namespace utf8

/-- Is the byte `b` between `lo` and `hi`. -/
def inRange (lo hi : Nat) (b : Char) : Bool :=
  decide (lo ≤ b.toNat ∧ b.toNat ≤ hi)

/-- The width that Go `utf8.DecodeRuneInString` finds at the head of a byte sequence: the
length, 1 to 4, of the well-formed UTF-8 sequence that starts it, and 0 when there is none
(Go then returns `RuneError` with width 1).  Overlong forms, surrogates and values above
U+10FFFF are not well formed. -/
def sequenceLength : List Char → Nat
  | [] => 0
  | b0 :: rest =>
    if b0.toNat < 0x80 then 1
    else if b0.toNat < 0xC2 then 0
    else if b0.toNat < 0xE0 then
      match rest with
      | b1 :: _ => if inRange 0x80 0xBF b1 then 2 else 0
      | _ => 0
    else if b0.toNat < 0xF0 then
      match rest with
      | b1 :: b2 :: _ =>
        if inRange (if b0.toNat = 0xE0 then 0xA0 else 0x80)
              (if b0.toNat = 0xED then 0x9F else 0xBF) b1
            && inRange 0x80 0xBF b2 then 3
        else 0
      | _ => 0
    else if b0.toNat < 0xF5 then
      match rest with
      | b1 :: b2 :: b3 :: _ =>
        if inRange (if b0.toNat = 0xF0 then 0x90 else 0x80)
              (if b0.toNat = 0xF4 then 0x8F else 0xBF) b1
            && inRange 0x80 0xBF b2 && inRange 0x80 0xBF b3 then 4
        else 0
      | _ => 0
    else 0

/-- Scanning loop of `utf8.ValidString`; `skip` counts the bytes of the sequence just
recognised that are still to be passed over. -/
def validGo : Nat → List Char → Bool
  | _, [] => true
  | skip + 1, _ :: rest => validGo skip rest
  | 0, b :: rest =>
    match sequenceLength (b :: rest) with
    | 0 => false
    | width + 1 => validGo width rest

/-- Go `utf8.ValidString(s)`: `s` consists of well-formed UTF-8 sequences only. -/
def ValidString (s : String) : Bool :=
  validGo 0 s.data

end utf8

/-- Scanning loop of `replaceInvalidUTF8`; `skip` as in `utf8.validGo`. -/
def replaceInvalidGo : Nat → List Char → List Char
  | _, [] => []
  | skip + 1, b :: rest => b :: replaceInvalidGo skip rest
  | 0, b :: rest =>
    match utf8.sequenceLength (b :: rest) with
    | 0 => "\xef\xbf\xbd".data ++ replaceInvalidGo 0 rest
    | width + 1 => b :: replaceInvalidGo width rest

/-- What a Go string is after `json.Marshal` and `json.Unmarshal`: the encoder writes `\ufffd`
for every byte at which `utf8.DecodeRuneInString` reports `RuneError` with width 1, and the
decoder reads that as U+FFFD; well-formed sequences are kept. -/
def replaceInvalidUTF8 (s : String) : String :=
  String.mk (replaceInvalidGo 0 s.data)

/-! ## Auxiliary definitions for the statements -/

/-- The core-API aliases of `getAPIPath`, each with the resource segment of its `case`. -/
def coreAliases : List (String × String) :=
  [("pods", "pods"), ("pod", "pods"), ("po", "pods"),
   ("cm", "configmaps"), ("configmaps", "configmaps"), ("configmap", "configmaps"),
   ("services", "services"), ("service", "services"), ("svc", "services")]

/-- The grouped-API aliases of `getAPIPath`, each with the path template of its `case`. -/
def groupedAliases : List (String × String) :=
  [("deployments", "/apis/apps/v1/deployments"), ("deployment", "/apis/apps/v1/deployments"),
   ("deploy", "/apis/apps/v1/deployments"),
   ("sts", "/apis/apps/v1/statefulsets"), ("statefulsets", "/apis/apps/v1/statefulsets"),
   ("statefulset", "/apis/apps/v1/statefulsets")]

/-- The character `escapeCacheKey` writes in place of `c`. -/
def escapeChar (c : Char) : Char :=
  if c = '/' then '_' else c

/-- The entries of a label map; a nil map has none. -/
def Labels.entries (labels : Labels) : List (String × String) :=
  labels.getD []

/-- A small encoder and decoder of cache records, used to run the cache on concrete inputs:
the timestamp (not negative) in unary, a colon, the response.  As `encoding/json` does, the
encoder writes U+FFFD for every byte of the response that is not part of a well-formed UTF-8
sequence. -/
def tallyJSON : JSON where
  Marshal := fun r =>
    if r.Timestamp < 0 then .error "negative timestamp"
    else .ok (String.mk (List.replicate r.Timestamp.toNat 'I'
      ++ ':' :: (replaceInvalidUTF8 r.Response).data))
  Unmarshal := fun data =>
    match data.data.span (fun c => c = 'I') with
    | (tally, ':' :: rest) => .ok { Timestamp := tally.length, Response := String.mk rest }
    | _ => .error "invalid character"
  UnmarshalTable := fun _ => .error "unexpected end of JSON input"

/-- A file system without files. -/
def emptyFS : FileSystem :=
  fun _ => File.absent

/-- The JSON text `{"items":[{"metadata":{"labels":{"app":"web"}}},{"metadata":{"labels":{}}}]}`. -/
def webTableJSON : String :=
  "\x7b\"items\":[\x7b\"metadata\":\x7b\"labels\":\x7b\"app\":\"web\"\x7d\x7d\x7d,\x7b\"metadata\":\x7b\"labels\":\x7b\x7d\x7d\x7d]\x7d"

/-- The `Table` that the text `webTableJSON` denotes: an item with the label `app=web` and an
item with an empty label map. -/
def webTable : Table :=
  { Items := [{ Metadata := { Labels := some [("app", "web")] } },
              { Metadata := { Labels := some [] } }] }

/-- A table of three items: two labels, nil labels, one label. -/
def threeItems : Table :=
  { Items := [{ Metadata := { Labels := some [("app", "web"), ("tier", "db")] } },
              { Metadata := { Labels := none } },
              { Metadata := { Labels := some [("app", "web")] } }] }

/-- A world with the sample decoder, no cache files, no server, and maps that are visited from
their last entry to their first. -/
def reversingWorld : World :=
  { json := tallyJSON, ClientConfig := .ok (), NewForConfig := .ok (), MkdirAll := .ok (),
    fs := emptyFS, nowGet := 0, nowSet := 0, DoRaw := fun _ => .error "connection refused",
    order := List.reverse }

/-- A world without cache files whose server refuses every request with an error that names
the request-URI. -/
def refusingWorld : World :=
  { json := tallyJSON, ClientConfig := .ok (), NewForConfig := .ok (), MkdirAll := .ok (),
    fs := emptyFS, nowGet := 0, nowSet := 0,
    DoRaw := fun uri => .error (fmt.Sprintf "the server refused %s" [uri]),
    order := List.reverse }

/-! # Theorems -/

/-! ## Formatting lemmas -/

theorem sprintf_core (path : String) :
    fmt.Sprintf "/api/v1%s" [path] = "/api/v1" ++ path := by
  apply String.ext
  simp [fmt.Sprintf, fmt.sprintfGo]

theorem sprintf_core_ns (ns path : String) :
    fmt.Sprintf "/api/v1/namespaces/%s%s" [ns, path] = "/api/v1/namespaces/" ++ ns ++ path := by
  apply String.ext
  simp [fmt.Sprintf, fmt.sprintfGo]

theorem sprintf_slash (name : String) : fmt.Sprintf "/%s" [name] = "/" ++ name := by
  apply String.ext
  simp [fmt.Sprintf, fmt.sprintfGo]

theorem sprintf_grouped (a ns r : String) :
    fmt.Sprintf "%s/namespaces/%s/%s" [a, ns, r] = a ++ "/namespaces/" ++ ns ++ "/" ++ r := by
  apply String.ext
  simp [fmt.Sprintf, fmt.sprintfGo]

theorem formatPath_core (ns path : String) (h : strings.HasPrefix path "/apis" = false) :
    formatPath ns path
      = if ns = "" then "/api/v1" ++ path else "/api/v1/namespaces/" ++ ns ++ path := by
  simp [formatPath, h, sprintf_core, sprintf_core_ns]

theorem formatPath_grouped_deployments (ns : String) (h : ns ≠ "") :
    formatPath ns "/apis/apps/v1/deployments"
      = "apis/apps/v1/namespaces/" ++ ns ++ "/deployments" := by
  have hp : strings.HasPrefix "/apis/apps/v1/deployments" "/apis" = true := by decide
  have hs : strings.Split "/apis/apps/v1/deployments" "/"
      = ["", "apis", "apps", "v1", "deployments"] := by decide
  have hj : strings.Join ((["", "apis", "apps", "v1", "deployments"].drop 1).take 3) "/"
      = "apis/apps/v1" := by decide
  simp only [formatPath, hp, hs, hj, if_neg h, sprintf_grouped]
  apply String.ext
  simp


theorem formatPath_grouped_statefulsets (ns : String) (h : ns ≠ "") :
    formatPath ns "/apis/apps/v1/statefulsets"
      = "apis/apps/v1/namespaces/" ++ ns ++ "/statefulsets" := by
  have hp : strings.HasPrefix "/apis/apps/v1/statefulsets" "/apis" = true := by decide
  have hs : strings.Split "/apis/apps/v1/statefulsets" "/"
      = ["", "apis", "apps", "v1", "statefulsets"] := by decide
  have hj : strings.Join ((["", "apis", "apps", "v1", "statefulsets"].drop 1).take 3) "/"
      = "apis/apps/v1" := by decide
  simp only [formatPath, hp, hs, hj, if_neg h, sprintf_grouped]
  apply String.ext
  simp

/-- What `getAPIPath` returns for a grouped-API alias and a non-empty namespace: the
namespace is spliced in, and the path starts with `apis`, not with `/apis`. -/
theorem getAPIPath_grouped (ns : String) (h : ns ≠ "") :
    (getAPIPath "deployments" ns = "apis/apps/v1/namespaces/" ++ ns ++ "/deployments"
      ∧ getAPIPath "deployment" ns = "apis/apps/v1/namespaces/" ++ ns ++ "/deployments"
      ∧ getAPIPath "deploy" ns = "apis/apps/v1/namespaces/" ++ ns ++ "/deployments")
    ∧ (getAPIPath "sts" ns = "apis/apps/v1/namespaces/" ++ ns ++ "/statefulsets"
      ∧ getAPIPath "statefulsets" ns = "apis/apps/v1/namespaces/" ++ ns ++ "/statefulsets"
      ∧ getAPIPath "statefulset" ns = "apis/apps/v1/namespaces/" ++ ns ++ "/statefulsets") := by
  refine ⟨⟨?_, ?_, ?_⟩, ?_, ?_, ?_⟩ <;>
    simp [getAPIPath, formatPath_grouped_deployments, formatPath_grouped_statefulsets, h]

theorem hasPrefix_slash (name : String) :
    strings.HasPrefix ("/" ++ name) "/apis" = strings.HasPrefix name "apis" := by
  simp [strings.HasPrefix, List.isPrefixOf]

/-- C1, evaluated on the code: for the alias `deployments` and the namespace `default`,
`getAPIPath` returns `apis/apps/v1/namespaces/default/deployments`, without the leading `/`
that the claim states; likewise for `sts`. -/
theorem getAPIPath_grouped_default :
    getAPIPath "deployments" "default" = "apis/apps/v1/namespaces/default/deployments"
      ∧ getAPIPath "deployments" "default"
          ≠ "/apis/apps/v1/namespaces/" ++ "default" ++ "/deployments"
      ∧ getAPIPath "sts" "default" = "apis/apps/v1/namespaces/default/statefulsets"
      ∧ getAPIPath "sts" "default"
          ≠ "/apis/apps/v1/namespaces/" ++ "default" ++ "/statefulsets" := by
  decide

/-- C2: for a core-API alias (`pods`, `pod`, `po`; `cm`, `configmaps`, `configmap`;
`services`, `service`, `svc`) with resource segment `resource`, `getAPIPath` returns
`/api/v1/<resource>` for the empty namespace and `/api/v1/namespaces/<ns>/<resource>` for a
non-empty namespace `ns`, which is inserted as it is. -/
theorem getAPIPath_core_alias (name resource ns : String)
    (h : (name, resource) ∈ coreAliases) :
    getAPIPath name "" = "/api/v1/" ++ resource
      ∧ (ns ≠ "" → getAPIPath name ns = "/api/v1/namespaces/" ++ ns ++ "/" ++ resource) := by
  simp only [coreAliases, List.mem_cons, Prod.mk.injEq, List.mem_singleton, List.not_mem_nil,
    or_false] at h
  have hpods : strings.HasPrefix "/pods" "/apis" = false := by decide
  have hcm : strings.HasPrefix "/configmaps" "/apis" = false := by decide
  have hsvc : strings.HasPrefix "/services" "/apis" = false := by decide
  rcases h with h | h | h | h | h | h | h | h | h <;> obtain ⟨rfl, rfl⟩ := h <;>
    refine ⟨by decide, fun hns => ?_⟩ <;>
    simp only [getAPIPath, formatPath_core, hpods, hcm, hsvc, if_neg hns] <;>
    simp <;> apply String.ext <;> simp

theorem getAPIPath_core_alias_witness :
    ("po", "pods") ∈ coreAliases
      ∧ getAPIPath "po" "" = "/api/v1/" ++ "pods"
      ∧ getAPIPath "po" "kube-system" = "/api/v1/namespaces/" ++ "kube-system" ++ "/" ++ "pods" :=
  ⟨by decide, (getAPIPath_core_alias "po" "pods" "kube-system" (by decide)).1,
    (getAPIPath_core_alias "po" "pods" "kube-system" (by decide)).2 (by decide)⟩

/-- C3, as stated, fails: the alias `apis/batch/v1/jobs` is not a canonical alias, and
`getAPIPath` does not put it under `/api/v1`, with the empty namespace or with `default`. -/
theorem unknown_alias_apis_counterexample :
    "apis/batch/v1/jobs" ∉ canonicalAliases
      ∧ getAPIPath "apis/batch/v1/jobs" "" = "/apis/batch/v1/jobs"
      ∧ getAPIPath "apis/batch/v1/jobs" "" ≠ "/api/v1/" ++ "apis/batch/v1/jobs"
      ∧ getAPIPath "apis/batch/v1/jobs" "default"
          ≠ "/api/v1/namespaces/" ++ "default" ++ "/" ++ "apis/batch/v1/jobs" := by
  decide

/-- C3, amended: for every alias that is not a canonical alias and does not begin with
`apis`, `getAPIPath` returns `/api/v1/<alias>` for the empty namespace and
`/api/v1/namespaces/<ns>/<alias>` for a non-empty namespace `ns`. -/
theorem getAPIPath_unknown_alias (name ns : String) (h : name ∉ canonicalAliases)
    (hapis : strings.HasPrefix name "apis" = false) :
    getAPIPath name "" = "/api/v1/" ++ name
      ∧ (ns ≠ "" → getAPIPath name ns = "/api/v1/namespaces/" ++ ns ++ "/" ++ name) := by
  simp only [canonicalAliases, List.mem_cons, List.mem_singleton, List.not_mem_nil, or_false,
    not_or] at h
  obtain ⟨h1, h2, h3, h4, h5, h6, h7, h8, h9, h10, h11, h12, h13, h14, h15, h16, h17⟩ := h
  have hp : strings.HasPrefix ("/" ++ name) "/apis" = false := by
    rw [hasPrefix_slash]; exact hapis
  have hg : ∀ n, getAPIPath name n = formatPath n ("/" ++ name) := by
    intro n
    simp [getAPIPath, sprintf_slash, h1, h2, h3, h4, h5, h6, h7, h8, h9, h10, h11, h12, h13,
      h14, h15, h16, h17]
  refine ⟨?_, fun hns => ?_⟩
  · rw [hg, formatPath_core _ _ hp]
    apply String.ext
    simp
  · rw [hg, formatPath_core _ _ hp, if_neg hns]
    apply String.ext
    simp

theorem getAPIPath_unknown_alias_witness :
    "ingresses" ∉ canonicalAliases
      ∧ strings.HasPrefix "ingresses" "apis" = false
      ∧ getAPIPath "ingresses" "" = "/api/v1/" ++ "ingresses"
      ∧ getAPIPath "ingresses" "prod" = "/api/v1/namespaces/" ++ "prod" ++ "/" ++ "ingresses" :=
  ⟨by decide, by decide,
    (getAPIPath_unknown_alias "ingresses" "prod" (by decide) (by decide)).1,
    (getAPIPath_unknown_alias "ingresses" "prod" (by decide) (by decide)).2 (by decide)⟩

/-- C4: for every namespace, `getAPIPath` returns `/api/v1/nodes` for the aliases `nodes` and
`node`; the namespace is ignored. -/
theorem getAPIPath_nodes (ns : String) :
    getAPIPath "nodes" ns = "/api/v1/nodes" ∧ getAPIPath "node" ns = "/api/v1/nodes" := by
  constructor <;> simp [getAPIPath]

/-- C9: the namespace flag `all` becomes the empty namespace, a run of `main` with the flag
`all` is the run with the empty namespace, and the path then built for a grouped-API alias is
its template, `/apis/apps/v1/deployments` or `/apis/apps/v1/statefulsets`, without a
`namespaces` segment: once the client and the cache directory are set up, a run of `main` for
such an alias with the flag `all` looks up the cache entry of the template, and on a miss
requests the template from the server and stores the response under it. -/
theorem getAPIPath_all_namespaces (w : World) (resourceType : String) :
    namespaceOfFlag "all" = ""
      ∧ autocomplete.main w resourceType "all" = autocomplete.main w resourceType ""
      ∧ getAPIPath "deployments" (namespaceOfFlag "all") = "/apis/apps/v1/deployments"
      ∧ getAPIPath "deployment" (namespaceOfFlag "all") = "/apis/apps/v1/deployments"
      ∧ getAPIPath "deploy" (namespaceOfFlag "all") = "/apis/apps/v1/deployments"
      ∧ getAPIPath "sts" (namespaceOfFlag "all") = "/apis/apps/v1/statefulsets"
      ∧ getAPIPath "statefulsets" (namespaceOfFlag "all") = "/apis/apps/v1/statefulsets"
      ∧ getAPIPath "statefulset" (namespaceOfFlag "all") = "/apis/apps/v1/statefulsets"
      ∧ getAPIPath "deployments" "" = "/apis/apps/v1/deployments"
      ∧ getAPIPath "sts" "" = "/apis/apps/v1/statefulsets"
      ∧ (∀ name template : String, (name, template) ∈ groupedAliases →
          w.ClientConfig = .ok () → w.NewForConfig = .ok () → w.MkdirAll = .ok () →
          autocomplete.main w name "all"
            = if (getCachedResponse w.json w.fs w.nowGet template).1.2 then
                printTable w w.fs (getCachedResponse w.json w.fs w.nowGet template).2
                  (getCachedResponse w.json w.fs w.nowGet template).1.1
              else
                match w.DoRaw template with
                | .error err =>
                  Fatalf w.fs (getCachedResponse w.json w.fs w.nowGet template).2
                    (fmt.Sprintf "Error getting resource: %v" [err])
                | .ok result =>
                  printTable w (setCachedResponse w.json w.fs w.nowSet template result).1
                    ((getCachedResponse w.json w.fs w.nowGet template).2
                      ++ (setCachedResponse w.json w.fs w.nowSet template result).2)
                    result) := by
  have h1 : namespaceOfFlag "all" = "" := by decide
  have h2 : namespaceOfFlag "" = "" := by decide
  refine ⟨by decide, ?_, by decide, by decide, by decide, by decide, by decide, by decide,
    by decide, by decide, ?_⟩
  · simp only [autocomplete.main, h1, h2]
  · intro name template hmem hc hn hd
    have hpath : getAPIPath name "" = template := by
      simp only [groupedAliases, List.mem_cons, Prod.mk.injEq, List.mem_singleton,
        List.not_mem_nil, or_false] at hmem
      rcases hmem with h | h | h | h | h | h <;> obtain ⟨rfl, rfl⟩ := h <;> decide
    simp only [autocomplete.main, h1, hc, hn, hd, hpath]

theorem getAPIPath_all_namespaces_witness :
    ("deploy", "/apis/apps/v1/deployments") ∈ groupedAliases
      ∧ refusingWorld.DoRaw "/apis/apps/v1/deployments"
          = .error "the server refused /apis/apps/v1/deployments"
      ∧ autocomplete.main refusingWorld "deploy" "all"
          = Fatalf emptyFS [] "Error getting resource: the server refused /apis/apps/v1/deployments" :=
  ⟨by decide, rfl,
    ((getAPIPath_all_namespaces refusingWorld "deploy").2.2.2.2.2.2.2.2.2.2
      "deploy" "/apis/apps/v1/deployments" (by decide) rfl rfl rfl).trans rfl⟩

/-! ## Cache key: lemmas -/

theorem replaceGo_slash (l : List Char) :
    strings.replaceGo ['/'] ['_'] 0 l = l.map escapeChar := by
  induction l with
  | nil => rfl
  | cons c rest ih =>
    by_cases hc : c = '/'
    · simp [strings.replaceGo, List.isPrefixOf, hc, escapeChar, ih]
    · have hc2 : ¬ '/' = c := fun h => hc h.symm
      simp [strings.replaceGo, List.isPrefixOf, hc, hc2, escapeChar, ih]

theorem escapeCacheKey_data (p : String) :
    (escapeCacheKey p).data = p.data.map escapeChar := by
  have h : ("/" : String).data ≠ [] := by decide
  simp only [escapeCacheKey, strings.ReplaceAll, if_neg h]
  exact replaceGo_slash p.data

theorem utf8Size_escapeChar (c : Char) : (escapeChar c).utf8Size = c.utf8Size := by
  unfold escapeChar
  split
  · next h => subst h; decide
  · rfl

theorem utf8Len_map_escapeChar (l : List Char) :
    String.utf8Len (l.map escapeChar) = String.utf8Len l := by
  induction l with
  | nil => rfl
  | cons c rest ih =>
    rw [List.map_cons, String.utf8Len_cons, String.utf8Len_cons, ih, utf8Size_escapeChar]

theorem escapeChar_injOn (c d : Char) (hc : c ≠ '_') (hd : d ≠ '_')
    (h : escapeChar c = escapeChar d) : c = d := by
  unfold escapeChar at h
  split at h <;> split at h
  · next h1 h2 => rw [h1, h2]
  · exact absurd h.symm hd
  · exact absurd h hc
  · exact h

theorem map_escapeChar_injOn (l m : List Char) (hl : '_' ∉ l) (hm : '_' ∉ m)
    (h : l.map escapeChar = m.map escapeChar) : l = m := by
  induction l generalizing m with
  | nil => cases m with
    | nil => rfl
    | cons d m => simp at h
  | cons c l ih => cases m with
    | nil => simp at h
    | cons d m =>
      simp only [List.map_cons, List.cons.injEq] at h
      simp only [List.mem_cons, not_or] at hl hm
      rw [escapeChar_injOn c d (Ne.symm hl.1) (Ne.symm hm.1) h.1, ih m hl.2 hm.2 h.2]

/-- C8: for every API path `p`, `escapeCacheKey p` has the length of `p` (in characters and in
bytes), contains no `/`, and at every position holds `_` where `p` holds `/` and the character
of `p` otherwise; `/apis/apps/v1/deployments` becomes `_apis_apps_v1_deployments`. -/
theorem escapeCacheKey_spec (p : String) (i : Nat) :
    (escapeCacheKey p).length = p.length
      ∧ (escapeCacheKey p).utf8ByteSize = p.utf8ByteSize
      ∧ '/' ∉ (escapeCacheKey p).data
      ∧ (escapeCacheKey p).data[i]? = (p.data[i]?).map (fun c => if c = '/' then '_' else c)
      ∧ escapeCacheKey "/apis/apps/v1/deployments" = "_apis_apps_v1_deployments" := by
  refine ⟨?_, ?_, ?_, ?_, by decide⟩
  · show (escapeCacheKey p).data.length = p.data.length
    rw [escapeCacheKey_data, List.length_map]
  · cases hp : p with
    | mk l =>
      cases he : escapeCacheKey (String.mk l) with
      | mk e =>
        have := escapeCacheKey_data (String.mk l)
        rw [he] at this
        simp only at this
        subst this
        rw [String.utf8ByteSize_mk, String.utf8ByteSize_mk, utf8Len_map_escapeChar]
  · rw [escapeCacheKey_data]
    intro h
    obtain ⟨c, _, hc⟩ := List.mem_map.1 h
    unfold escapeChar at hc
    split at hc
    · exact absurd hc (by decide)
    · next hne => exact hne hc
  · rw [escapeCacheKey_data, List.getElem?_map]
    rfl

theorem formatPath_has_slash (ns path : String) : '/' ∈ (formatPath ns path).data := by
  unfold formatPath
  split
  · next hp =>
    have hpath : '/' ∈ path.data := by
      cases hd : path.data with
      | nil => simp [strings.HasPrefix, hd, List.isPrefixOf] at hp
      | cons c rest =>
        simp only [strings.HasPrefix, hd, List.isPrefixOf, Bool.and_eq_true, beq_iff_eq] at hp
        simp [← hp.1]
    split
    · exact hpath
    · simp only []
      split
      · exact hpath
      · rw [sprintf_grouped]
        simp
  · split
    · rw [sprintf_core]; simp
    · rw [sprintf_core_ns]; simp

theorem getAPIPath_has_slash (resourceType ns : String) :
    '/' ∈ (getAPIPath resourceType ns).data := by
  unfold getAPIPath
  split_ifs <;> first
    | exact formatPath_has_slash _ _
    | decide

theorem splitGo_no_sep (cur l : List Char) (h : '/' ∉ l) :
    strings.splitGo ['/'] 0 cur l = [String.mk (cur.reverse ++ l)] := by
  induction l generalizing cur with
  | nil => simp [strings.splitGo]
  | cons c rest ih =>
    simp only [List.mem_cons, not_or] at h
    have hc : ¬ '/' = c := h.1
    simp [strings.splitGo, List.isPrefixOf, hc, ih (c :: cur) h.2]

theorem join_cacheDir (e : String) (hns : '/' ∉ e.data) (he1 : e ≠ "") (he2 : e ≠ ".")
    (he3 : e ≠ "..") : filepath.Join [cacheDir, e] = ".cache/" ++ e := by
  have hjoin : strings.Join [cacheDir, e] "/" = ".cache/" ++ e := by
    apply String.ext
    simp [strings.Join, cacheDir, List.intercalate, List.intersperse]
  have hsplit : strings.Split (".cache/" ++ e) "/" = [".cache", e] := by
    have hsep : ("/" : String).data ≠ [] := by decide
    simp only [strings.Split, if_neg hsep]
    have : (".cache/" ++ e).data = '.' :: 'c' :: 'a' :: 'c' :: 'h' :: 'e' :: '/' :: e.data := by
      simp
    rw [this]
    simp [strings.splitGo, List.isPrefixOf, splitGo_no_sep [] e.data hns]
  have hroot : strings.HasPrefix (".cache/" ++ e) "/" = false := by
    simp [strings.HasPrefix, List.isPrefixOf]
  have hne : (".cache/" ++ e) ≠ "" := by
    intro h0
    have := congrArg String.data h0
    simp at this
  have hcd : (cacheDir = "") = False := by simp [cacheDir]
  have hout : strings.Join [".cache", e] "/" = ".cache/" ++ e := hjoin
  simp only [filepath.Join, List.dropWhile, hcd, decide_False, hjoin,
    filepath.Clean, if_neg hne, hroot, hsplit, List.foldl, filepath.cleanStep]
  simp [he1, he2, he3, hout]
  intro h0
  have := congrArg String.data h0
  simp at this

theorem cacheFilePath_of_slash (p : String) (h : '/' ∈ p.data) :
    cacheFilePath p = ".cache/" ++ escapeCacheKey p := by
  have hus : '_' ∈ (escapeCacheKey p).data := by
    rw [escapeCacheKey_data]
    exact List.mem_map.2 ⟨'/', h, by decide⟩
  have hns : '/' ∉ (escapeCacheKey p).data := by
    rw [escapeCacheKey_data]
    intro hm
    obtain ⟨c, _, hc⟩ := List.mem_map.1 hm
    unfold escapeChar at hc
    split at hc
    · exact absurd hc (by decide)
    · next hne => exact hne hc
  unfold cacheFilePath
  generalize escapeCacheKey p = e at hus hns ⊢
  have he1 : e ≠ "" := by rintro rfl; simp at hus
  have he2 : e ≠ "." := by rintro rfl; revert hus; decide
  have he3 : e ≠ ".." := by rintro rfl; revert hus; decide
  exact join_cacheDir e hns he1 he2 he3

/-- C10: on strings without `_`, `escapeCacheKey` is injective; without that condition it is
not (`/a/b` and `/a_b` have the same key); and two paths built by `getAPIPath` that contain
no `_` and have the same cache file are equal. -/
theorem escapeCacheKey_injective :
    (∀ p q : String, '_' ∉ p.data → '_' ∉ q.data →
        escapeCacheKey p = escapeCacheKey q → p = q)
      ∧ (escapeCacheKey "/a/b" = escapeCacheKey "/a_b" ∧ "/a/b" ≠ "/a_b")
      ∧ (∀ r₁ n₁ r₂ n₂ : String,
          '_' ∉ (getAPIPath r₁ n₁).data → '_' ∉ (getAPIPath r₂ n₂).data →
          cacheFilePath (getAPIPath r₁ n₁) = cacheFilePath (getAPIPath r₂ n₂) →
          getAPIPath r₁ n₁ = getAPIPath r₂ n₂) := by
  have inj : ∀ p q : String, '_' ∉ p.data → '_' ∉ q.data →
      escapeCacheKey p = escapeCacheKey q → p = q := by
    intro p q hp hq h
    have hd := congrArg String.data h
    rw [escapeCacheKey_data, escapeCacheKey_data] at hd
    exact String.ext (map_escapeChar_injOn p.data q.data hp hq hd)
  refine ⟨inj, by decide, ?_⟩
  intro r₁ n₁ r₂ n₂ h₁ h₂ h
  rw [cacheFilePath_of_slash _ (getAPIPath_has_slash r₁ n₁),
    cacheFilePath_of_slash _ (getAPIPath_has_slash r₂ n₂)] at h
  apply inj _ _ h₁ h₂
  have hd := congrArg String.data h
  simp only [String.data_append, List.append_cancel_left_eq] at hd
  exact String.ext hd

theorem escapeCacheKey_injective_witness :
    ('_' ∉ "/api/v1/pods".data ∧ '_' ∉ "/api/v1/nodes".data
        ∧ (escapeCacheKey "/api/v1/pods" = escapeCacheKey "/api/v1/nodes"
            → "/api/v1/pods" = "/api/v1/nodes"))
      ∧ ('_' ∉ (getAPIPath "pods" "default").data ∧ '_' ∉ (getAPIPath "po" "default").data
        ∧ cacheFilePath (getAPIPath "pods" "default") = cacheFilePath (getAPIPath "po" "default")
        ∧ getAPIPath "pods" "default" = getAPIPath "po" "default") :=
  ⟨⟨by decide, by decide,
      escapeCacheKey_injective.1 "/api/v1/pods" "/api/v1/nodes" (by decide) (by decide)⟩,
    by decide, by decide, by decide,
    escapeCacheKey_injective.2.2 "pods" "default" "po" "default" (by decide) (by decide)
      (by decide)⟩

/-! ## File cache: lemmas -/

theorem since_gt_iff (now t : Int) :
    time.Since now t > 5 * time.Minute ↔ now - t > 300 * time.Second := by
  simp only [time.Since, time.Sub, time.Minute, time.Second, time.minDuration,
    time.maxDuration]
  norm_num
  split_ifs <;> constructor <;> intro h <;> omega

theorem readFile_of_writeFile (fs fs1 fs2 : FileSystem) (name data : String)
    (hw : ioutil.WriteFile fs name data = .ok fs1) (hfile : fs2 name = fs1 name) :
    ioutil.ReadFile fs2 name = .ok data := by
  have h1 : fs1 name = File.regular data := by
    unfold ioutil.WriteFile at hw
    split at hw <;> simp at hw <;> simp [← hw]
  simp [ioutil.ReadFile, hfile, h1]

theorem replaceInvalidGo_of_valid (skip : Nat) (l : List Char)
    (h : utf8.validGo skip l = true) : replaceInvalidGo skip l = l := by
  induction l generalizing skip with
  | nil => cases skip <;> rfl
  | cons b rest ih =>
    cases skip with
    | succ k =>
      simp only [utf8.validGo] at h
      simp only [replaceInvalidGo, ih k h]
    | zero =>
      simp only [utf8.validGo] at h
      simp only [replaceInvalidGo]
      cases hw : utf8.sequenceLength (b :: rest) with
      | zero => simp [hw] at h
      | succ width =>
        simp only [hw] at h
        simp only [ih width h]

theorem replaceInvalidUTF8_of_valid (s : String) (h : utf8.ValidString s = true) :
    replaceInvalidUTF8 s = s :=
  String.ext (replaceInvalidGo_of_valid 0 s.data h)

/-- C5, as stated, fails: the body `"\xff\xfe"` is not UTF-8; `setCachedResponse` stores it
at time 2 without logging an error, and a `getCachedResponse` at the same time returns
`(U+FFFD U+FFFD, true)`, not the body as stored. -/
theorem invalid_utf8_body_counterexample :
    (setCachedResponse tallyJSON emptyFS 2 "/api/v1/pods" "\xff\xfe").2 = []
      ∧ getCachedResponse tallyJSON
          (setCachedResponse tallyJSON emptyFS 2 "/api/v1/pods" "\xff\xfe").1 2 "/api/v1/pods"
          = (("\xef\xbf\xbd\xef\xbf\xbd", true), [])
      ∧ getCachedResponse tallyJSON
          (setCachedResponse tallyJSON emptyFS 2 "/api/v1/pods" "\xff\xfe").1 2 "/api/v1/pods"
          ≠ (("\xff\xfe", true), []) := by
  refine ⟨by decide, by decide, by decide⟩

/-- C5, amended: when `setCachedResponse(key, body)` runs at time `T`, encodes its record and
writes the cache file, it logs nothing; a `getCachedResponse(key)` that finds that file as
written, at a time `T'` with `T' - T <= 300` seconds, returns the body with every byte that is
not part of a well-formed UTF-8 sequence replaced by U+FFFD, and `true`; for a body that is
valid UTF-8 that is `(body, true)`, the body as stored.  The decoder is taken to return, as
`encoding/json` does, the timestamp given to the encoder and the response so replaced. -/
theorem cache_round_trip (json : JSON) (fs fs1 fs2 : FileSystem) (key body data : String)
    (T T' : Int)
    (hm : json.Marshal { Timestamp := T, Response := body } = .ok data)
    (hu : json.Unmarshal data = .ok { Timestamp := T, Response := replaceInvalidUTF8 body })
    (hw : ioutil.WriteFile fs (cacheFilePath key) data = .ok fs1)
    (hfile : fs2 (cacheFilePath key) = fs1 (cacheFilePath key))
    (hT : T' - T ≤ 300 * time.Second) :
    setCachedResponse json fs T key body = (fs1, [])
      ∧ getCachedResponse json fs2 T' key = ((replaceInvalidUTF8 body, true), [])
      ∧ (utf8.ValidString body = true →
          getCachedResponse json fs2 T' key = ((body, true), [])) := by
  have hget : getCachedResponse json fs2 T' key = ((replaceInvalidUTF8 body, true), []) := by
    have hr := readFile_of_writeFile fs fs1 fs2 _ data hw hfile
    have hs : ¬ time.Since T' T > 5 * time.Minute := by
      rw [since_gt_iff]; omega
    simp [getCachedResponse, hr, hu, hs]
  refine ⟨by simp [setCachedResponse, hm, hw], hget, fun hv => ?_⟩
  rw [hget, replaceInvalidUTF8_of_valid body hv]

theorem cache_round_trip_witness :
    tallyJSON.Marshal { Timestamp := 2, Response := "caf\xc3\xa9" } = .ok "II:caf\xc3\xa9"
      ∧ tallyJSON.Unmarshal "II:caf\xc3\xa9"
          = .ok { Timestamp := 2, Response := replaceInvalidUTF8 "caf\xc3\xa9" }
      ∧ (2 + 300 * time.Second) - 2 ≤ 300 * time.Second
      ∧ utf8.ValidString "caf\xc3\xa9" = true
      ∧ getCachedResponse tallyJSON
          (setCachedResponse tallyJSON emptyFS 2 "/api/v1/pods" "caf\xc3\xa9").1
          (2 + 300 * time.Second) "/api/v1/pods" = (("caf\xc3\xa9", true), []) :=
  ⟨rfl, rfl, by decide, by decide,
    (cache_round_trip tallyJSON emptyFS
      (setCachedResponse tallyJSON emptyFS 2 "/api/v1/pods" "caf\xc3\xa9").1
      (setCachedResponse tallyJSON emptyFS 2 "/api/v1/pods" "caf\xc3\xa9").1 "/api/v1/pods"
      "caf\xc3\xa9" "II:caf\xc3\xa9" 2 (2 + 300 * time.Second) rfl rfl rfl rfl
      (by decide)).2.2 (by decide)⟩

/-- C6: `getCachedResponse` returns `("", false)`, as a value, whenever the cache file of the
key cannot be read (it is absent, or reading fails otherwise), its content does not decode as
a cache record, or the decoded timestamp lies more than 5 minutes before the clock; so an
entry written at `T` is a miss at every `T'` with `T' - T > 300` seconds. -/
theorem getCachedResponse_fails_open (json : JSON) (fs : FileSystem) (now : Int)
    (key : String) :
    (fs (cacheFilePath key) = File.absent →
        getCachedResponse json fs now key = (("", false), []))
      ∧ (∀ err, ioutil.ReadFile fs (cacheFilePath key) = .error err →
        (getCachedResponse json fs now key).1 = ("", false))
      ∧ (∀ data err, ioutil.ReadFile fs (cacheFilePath key) = .ok data →
        json.Unmarshal data = .error err →
        (getCachedResponse json fs now key).1 = ("", false))
      ∧ (∀ data r, ioutil.ReadFile fs (cacheFilePath key) = .ok data →
        json.Unmarshal data = .ok r → now - r.Timestamp > 5 * time.Minute →
        getCachedResponse json fs now key = (("", false), []))
      ∧ (∀ (fs0 fs1 : FileSystem) (body data : String) (T : Int),
        json.Marshal { Timestamp := T, Response := body } = .ok data →
        json.Unmarshal data = .ok { Timestamp := T, Response := body } →
        ioutil.WriteFile fs0 (cacheFilePath key) data = .ok fs1 →
        fs (cacheFilePath key) = fs1 (cacheFilePath key) →
        now - T > 300 * time.Second →
        setCachedResponse json fs0 T key body = (fs1, [])
          ∧ getCachedResponse json fs now key = (("", false), [])) := by
  have hexp : ∀ data r, ioutil.ReadFile fs (cacheFilePath key) = .ok data →
      json.Unmarshal data = .ok r → now - r.Timestamp > 300 * time.Second →
      getCachedResponse json fs now key = (("", false), []) := by
    intro data r hr hu ht
    have hs : time.Since now r.Timestamp > 5 * time.Minute := (since_gt_iff _ _).2 ht
    simp [getCachedResponse, hr, hu, hs]
  refine ⟨?_, ?_, ?_, ?_, ?_⟩
  · intro h
    simp [getCachedResponse, ioutil.ReadFile, h, os.IsNotExist]
  · intro err h
    simp only [getCachedResponse, h]
    split <;> rfl
  · intro data err hr hu
    simp [getCachedResponse, hr, hu]
  · intro data r hr hu ht
    apply hexp data r hr hu
    have : 5 * time.Minute = 300 * time.Second := by decide
    omega
  · intro fs0 fs1 body data T hm hu hw hfile ht
    refine ⟨by simp [setCachedResponse, hm, hw], ?_⟩
    exact hexp data _ (readFile_of_writeFile fs0 fs1 fs _ data hw hfile) hu ht

theorem getCachedResponse_fails_open_witness :
    getCachedResponse tallyJSON emptyFS 7 "/api/v1/pods" = (("", false), [])
      ∧ (getCachedResponse tallyJSON (fun _ => File.denied) 7 "/api/v1/pods").1 = ("", false)
      ∧ (getCachedResponse tallyJSON (fun _ => File.regular "[]") 7 "/api/v1/pods").1
          = ("", false)
      ∧ getCachedResponse tallyJSON (fun _ => File.regular "II:[]") (3 + 5 * time.Minute)
          "/api/v1/pods" = (("", false), [])
      ∧ getCachedResponse tallyJSON
          (setCachedResponse tallyJSON emptyFS 2 "/api/v1/pods" "[]").1
          (3 + 300 * time.Second) "/api/v1/pods" = (("", false), []) :=
  ⟨(getCachedResponse_fails_open tallyJSON emptyFS 7 "/api/v1/pods").1 rfl,
    (getCachedResponse_fails_open tallyJSON (fun _ => File.denied) 7 "/api/v1/pods").2.1
      PathError.permission rfl,
    (getCachedResponse_fails_open tallyJSON (fun _ => File.regular "[]") 7
      "/api/v1/pods").2.2.1 "[]" "invalid character" rfl rfl,
    (getCachedResponse_fails_open tallyJSON (fun _ => File.regular "II:[]")
      (3 + 5 * time.Minute) "/api/v1/pods").2.2.2.1 "II:[]"
      { Timestamp := 2, Response := "[]" } rfl rfl (by decide),
    ((getCachedResponse_fails_open tallyJSON
      (setCachedResponse tallyJSON emptyFS 2 "/api/v1/pods" "[]").1
      (3 + 300 * time.Second) "/api/v1/pods").2.2.2.2 emptyFS
      (setCachedResponse tallyJSON emptyFS 2 "/api/v1/pods" "[]").1 "[]" "II:[]" 2
      rfl rfl rfl rfl (by decide)).2⟩

/-! ## Label printing: lemmas -/

theorem sprintf_label (key value : String) :
    fmt.Sprintf "%s=%s\n" [key, value] = key ++ "=" ++ value ++ "\n" := by
  apply String.ext
  simp [fmt.Sprintf, fmt.sprintfGo]

theorem foldl_print (f : String × String → String) (l : List (String × String))
    (stdout : List String) :
    l.foldl (fun out kv => out ++ [f kv]) stdout = stdout ++ l.map f := by
  induction l generalizing stdout with
  | nil => simp
  | cons kv rest ih => simp [ih]

theorem printLabels_eq (order : List (String × String) → List (String × String))
    (table : Table) (stdout : List String) :
    printLabels order table stdout
      = stdout ++ table.Items.flatMap (fun item =>
          (rangeLabels order item.Metadata.Labels).map
            (fun kv => kv.1 ++ "=" ++ kv.2 ++ "\n")) := by
  obtain ⟨items⟩ := table
  simp only [printLabels]
  induction items generalizing stdout with
  | nil => simp
  | cons item rest ih =>
    simp only [List.foldl_cons, List.flatMap_cons]
    rw [ih]
    have := foldl_print (fun kv => fmt.Sprintf "%s=%s\n" [kv.1, kv.2])
      (rangeLabels order item.Metadata.Labels) stdout
    rw [this]
    simp [sprintf_label]

theorem rangeLabels_perm (order : List (String × String) → List (String × String))
    (horder : ∀ m, (order m).Perm m) (labels : Labels) :
    (rangeLabels order labels).Perm labels.entries := by
  cases labels with
  | none => simp [rangeLabels, Labels.entries]
  | some m => simpa [rangeLabels, Labels.entries] using horder m

/-- C7: whatever order a `range` visits the entries of a map in, the writes of the printing
loops of `main` are, as a multiset, one `key=value` line for every label pair of every item;
their number is the sum of the sizes of the label maps; an item whose labels are nil or empty
adds nothing; and the table of the JSON text
`{"items":[{"metadata":{"labels":{"app":"web"}}},{"metadata":{"labels":{}}}]}` prints the
single line `app=web`. -/
theorem printLabels_spec (w : World) (horder : ∀ m, (w.order m).Perm m) (table : Table) :
    ((printLabels w.order table [] : List String) : Multiset String)
        = ((table.Items.flatMap (fun item =>
            item.Metadata.Labels.entries.map (fun kv => kv.1 ++ "=" ++ kv.2 ++ "\n"))
            : List String) : Multiset String)
      ∧ (printLabels w.order table []).length
        = (table.Items.map (fun item => item.Metadata.Labels.entries.length)).sum
      ∧ (∀ (before after : List Item) (item : Item),
          item.Metadata.Labels = none ∨ item.Metadata.Labels = some [] →
          printLabels w.order { Items := before ++ item :: after } []
            = printLabels w.order { Items := before ++ after } [])
      ∧ printLabels w.order webTable [] = ["app=web\n"]
      ∧ (∀ (fs : FileSystem) (log : List String),
          w.json.UnmarshalTable webTableJSON = .ok webTable →
          (printTable w fs log webTableJSON).stdout = ["app=web\n"]) := by
  have hperm : ∀ t : Table, (printLabels w.order t []).Perm
      (t.Items.flatMap (fun item =>
        item.Metadata.Labels.entries.map (fun kv => kv.1 ++ "=" ++ kv.2 ++ "\n"))) := by
    intro t
    rw [printLabels_eq, List.nil_append]
    exact List.Perm.flatMap_left _
      (fun item _ => (rangeLabels_perm w.order horder _).map _)
  have hweb : printLabels w.order webTable [] = ["app=web\n"] := by
    have h := hperm webTable
    have h2 : (webTable.Items.flatMap (fun item =>
        item.Metadata.Labels.entries.map (fun kv => kv.1 ++ "=" ++ kv.2 ++ "\n")))
        = ["app=web\n"] := by decide
    rw [h2] at h
    exact List.perm_singleton.1 h
  refine ⟨Multiset.coe_eq_coe.2 (hperm table), ?_, ?_, hweb, ?_⟩
  · rw [(hperm table).length_eq]
    simp [List.length_flatMap, Function.comp_def]
  · intro before after item hitem
    have hnil : rangeLabels w.order item.Metadata.Labels = [] := by
      rcases hitem with h | h
      · simp [rangeLabels, h]
      · have := horder []
        simp [rangeLabels, h, List.perm_nil.1 this]
    simp [printLabels_eq, hnil]
  · intro fs log hjson
    simp [printTable, hjson, hweb]

theorem printLabels_spec_witness :
    (∀ m : List (String × String), (reversingWorld.order m).Perm m)
      ∧ printLabels reversingWorld.order threeItems [] = ["tier=db\n", "app=web\n", "app=web\n"]
      ∧ ((printLabels reversingWorld.order threeItems [] : List String) : Multiset String)
          = ((["app=web\n", "tier=db\n", "app=web\n"] : List String) : Multiset String)
      ∧ (printLabels reversingWorld.order threeItems []).length = 3 :=
  ⟨fun _ => List.reverse_perm _, by decide,
    (printLabels_spec reversingWorld (fun _ => List.reverse_perm _) threeItems).1,
    (printLabels_spec reversingWorld (fun _ => List.reverse_perm _) threeItems).2.1⟩
